import Mathlib

/-!
Verification of the Cloud-MegaMerge document-list model, drag-gesture
controller and merge pipeline.

The definitions below are a shallow embedding of the TypeScript source:
`src/types.ts` (data model), `src/utils.ts` (classifier, id generator) and
`src/App.tsx` (the list-model handlers, the drag-end handler and the merge
pipeline).  JavaScript array primitives used by the source
(`Array.prototype.splice`, `Array.prototype.findIndex`, dnd-kit's
`arrayMove`) are modelled with their exact semantics, including negative
indices and clamping.  Paths of the source that dereference `undefined`
(and hence throw a `TypeError` at run time) are modelled by `Option`:
a result of `none` means the handler raises.

External pdf-lib primitives are modelled at the interface the source uses:
`PDFDocument.load` / `embedJpg` / `embedPng` either succeed on bytes of the
matching format or throw, `copyPages` copies pages in original order,
`getRotation` reads a page's stored rotation angle, and
`setRotation (degrees a)` stores the angle `a` as given (pdf-lib performs
no mod-360 reduction).  `Math.random`-based id generation is modelled by an
explicit supply `gen : Nat -> String`, drawn in call order.
-/

namespace CloudMegaMerge

/-- Document classification, from `src/types.ts` (`DocType`). -/
inductive DocType where
  | pdf
  | image
  | office
  | text
deriving DecidableEq

/-- `OFFICE_EXTENSIONS` from `src/types.ts`. -/
def OFFICE_EXTENSIONS : List String :=
  [".doc", ".docx", ".xls", ".xlsx", ".ppt", ".pptx"]

/-- `IMAGE_EXTENSIONS` from `src/types.ts`. -/
def IMAGE_EXTENSIONS : List String :=
  [".png", ".jpg", ".jpeg", ".webp"]

/-- The extension checked first by the classifier in `src/utils.ts`. -/
def pdfExtension : String := ".pdf"

/-- `getFileType` from `src/utils.ts`: classify a file name by extension. -/
def getFileType (fileName : String) : DocType :=
  let lower := fileName.toLower
  if lower.endsWith pdfExtension then DocType.pdf
  else if IMAGE_EXTENSIONS.any (fun ext => lower.endsWith ext) then DocType.image
  else if OFFICE_EXTENSIONS.any (fun ext => lower.endsWith ext) then DocType.office
  else DocType.text

/-- One page of a source PDF document, as seen through pdf-lib:
`content` abstracts the page's drawn content, `rotation` is the stored
`/Rotate` angle that `page.getRotation().angle` returns. -/
structure SrcPage where
  content : Nat
  rotation : Int
deriving DecidableEq

/-- What the raw bytes of an uploaded file parse to.  This abstracts
`file.arrayBuffer()` plus the fallible pdf-lib decoders the merge pipeline
feeds those bytes to: `PDFDocument.load` succeeds exactly on `pdfPages`,
`embedJpg` exactly on `jpgBytes`, `embedPng` exactly on `pngBytes`;
`pdfBroken` stands for corrupt or encrypted PDF bytes and `rasterBroken`
for undecodable image bytes. -/
inductive FileData where
  | pdfPages (pages : List SrcPage)
  | pdfBroken
  | jpgBytes (w h : Nat)
  | pngBytes (w h : Nat)
  | rasterBroken
  | otherBytes
deriving DecidableEq

/-- The browser `File` value carried by an entry: its `name`, `size`,
MIME `type` (field `mime` here) and byte content. -/
structure FileMeta where
  name : String
  size : Nat
  mime : String
  data : FileData
deriving DecidableEq

/-- `DocFile` from `src/types.ts`.  `rotation` is kept as `Nat`; the code
only ever produces the values 0, 90, 180, 270 via `(r + 90) % 360`. -/
structure DocFile where
  id : String
  file : FileMeta
  name : String
  size : Nat
  type : DocType
  rotation : Nat
  previewUrl : Option String
deriving DecidableEq

/-- The MIME class that triggers preview-URL creation in
`handleFilesSelected` (`file.type.startsWith('image/')`). -/
def imageMimeClass : String := "image/"

/-- The application state owned by `App` in `src/App.tsx` that the claims
are about: the document list, the selection set, the processing flag, and
two bookkeeping components of the embedding: `counter` counts how many ids
the `generateId` supply has produced so far, and `revokedUrls` logs every
object URL the code has released with `URL.revokeObjectURL` on an entry's
`previewUrl` (the source contains no such call, so no handler appends to
it). -/
structure AppState where
  files : List DocFile
  selectedIds : Finset String
  isProcessing : Bool
  counter : Nat
  revokedUrls : List String
deriving DecidableEq

/-- The initial state of `App`: empty list, empty selection. -/
def initialState : AppState :=
  { files := [], selectedIds := ∅, isProcessing := false,
    counter := 0, revokedUrls := [] }

/-- A fresh object URL for the `counter`-th `URL.createObjectURL` call. -/
def blobUrl (n : Nat) : String := "blob:" ++ toString n

/-- `handleFilesSelected` from `src/App.tsx`: ingest a batch of files.
Each new entry draws the next id from the supply `gen` (modelling one
`generateId()` call per file, in order), is classified by `getFileType`,
starts at rotation 0, and gets a preview URL exactly when its MIME type
starts with `image/`.  The new entries are appended at the tail. -/
def handleFilesSelected (gen : Nat → String) (metas : List FileMeta)
    (s : AppState) : AppState :=
  let newFiles := metas.enum.map (fun q =>
    { id := gen (s.counter + q.1)
      file := q.2
      name := q.2.name
      size := q.2.size
      type := getFileType q.2.name
      rotation := 0
      previewUrl := if q.2.mime.startsWith imageMimeClass
                    then some (blobUrl (s.counter + q.1)) else none : DocFile })
  { s with files := s.files ++ newFiles, counter := s.counter + metas.length }

/-- `handleRotate` from `src/App.tsx`: advance the rotation of the entry
with the given id by 90 degrees, wrapping mod 360. -/
def handleRotate (id : String) (s : AppState) : AppState :=
  { s with files := s.files.map (fun f =>
      if f.id = id then { f with rotation := (f.rotation + 90) % 360 } else f) }

/-- `handleBulkRotate` from `src/App.tsx`: advance every selected entry. -/
def handleBulkRotate (s : AppState) : AppState :=
  { s with files := s.files.map (fun f =>
      if f.id ∈ s.selectedIds then { f with rotation := (f.rotation + 90) % 360 } else f) }

/-- `handleDelete` from `src/App.tsx`: drop the entry with the given id
from the list and remove the id from the selection set.  The source
performs no `URL.revokeObjectURL` call here (or anywhere else on an
entry's `previewUrl`), so `revokedUrls` is left unchanged. -/
def handleDelete (id : String) (s : AppState) : AppState :=
  { s with files := s.files.filter (fun f => f.id != id),
           selectedIds := s.selectedIds.erase id }

/-- `handleBulkDelete` from `src/App.tsx`: drop every selected entry and
clear the whole selection. -/
def handleBulkDelete (s : AppState) : AppState :=
  { s with files := s.files.filter (fun f => ! decide (f.id ∈ s.selectedIds)),
           selectedIds := ∅ }

/-- The `Borrar todo` button in `src/App.tsx`: clear list and selection. -/
def clearAll (s : AppState) : AppState :=
  { s with files := [], selectedIds := ∅ }

/-- `toggleSelection` from `src/App.tsx`: toggle membership of `id` in the
selection set.  It reads nothing but `selectedIds`. -/
def toggleSelection (id : String) (s : AppState) : AppState :=
  { s with selectedIds := if id ∈ s.selectedIds
                          then s.selectedIds.erase id
                          else insert id s.selectedIds }

/-- `toggleSelectAll` from `src/App.tsx`: clear the selection when its size
equals the list length, otherwise select the ids of all entries. -/
def toggleSelectAll (s : AppState) : AppState :=
  { s with selectedIds := if s.selectedIds.card = s.files.length
                          then ∅
                          else (s.files.map DocFile.id).toFinset }

/-- JavaScript `Array.prototype.splice` start-index normalisation: a
negative index counts from the end (clamped at 0), a non-negative one is
clamped at the length. -/
def jsSpliceIndex (len : Nat) (idx : Int) : Nat :=
  if idx < 0 then ((len : Int) + idx).toNat else min idx.toNat len

/-- `arr.splice(idx, 0, ...items)`: insert `items` at the normalised
position `idx` of `l`, deleting nothing. -/
def jsSplice0 {α : Type} (l : List α) (idx : Int) (items : List α) : List α :=
  let i := jsSpliceIndex l.length idx
  l.take i ++ items ++ l.drop i

/-- JavaScript `Array.prototype.findIndex`: index of the first match, or
-1 when no element matches. -/
def jsFindIndex {α : Type} (p : α → Bool) (l : List α) : Int :=
  match l.findIdx? p with
  | some i => (i : Int)
  | none => -1

/-- dnd-kit's `arrayMove(array, from, to)`: remove the element at `from`
and reinsert it at `to` (both spliced with JavaScript index
normalisation).  When `from` falls outside the array, the JavaScript
original splices `undefined` into the result; that path is `none`. -/
def arrayMove {α : Type} (l : List α) (oldIndex newIndex : Int) :
    Option (List α) :=
  let fromIdx := jsSpliceIndex l.length oldIndex
  match l[fromIdx]? with
  | none => none
  | some moved =>
    let toIdx : Int := if newIndex < 0 then (l.length : Int) + newIndex else newIndex
    some (jsSplice0 (l.eraseIdx fromIdx) toIdx [moved])

/-- Direction argument of `handleMove` (`'up' | 'down'`). -/
inductive MoveDir where
  | up
  | down
deriving DecidableEq

/-- The group-move branch of `handleMove` in `src/App.tsx`.  Partition the
list into selected and unselected items, compute the indices of the
selected items, and for `up`: no-op when the first selected index is 0,
otherwise splice the selected items immediately before the item that sits
just above the topmost selected one (located inside the unselected
sub-sequence); `down` is the mirror image.  When no selected item occurs
in the list, `Math.min()` / `Math.max()` of an empty spread yields an
infinity, the subsequent element access yields `undefined` and the `.id`
read throws: that path is `none`. -/
def moveGroup (selectedIds : Finset String) (direction : MoveDir)
    (prev : List DocFile) : Option (List DocFile) :=
  let selectedItems := prev.filter (fun f => decide (f.id ∈ selectedIds))
  let unselectedItems := prev.filter (fun f => ! decide (f.id ∈ selectedIds))
  let indices := (prev.enum.filter (fun q => decide (q.2.id ∈ selectedIds))).map Prod.fst
  match direction with
  | MoveDir.up =>
    match indices.min? with
    | none => none
    | some firstSelectedIndex =>
      if firstSelectedIndex = 0 then some prev
      else
        match prev[firstSelectedIndex - 1]? with
        | none => none
        | some itemAbove =>
          let indexInUnselected :=
            jsFindIndex (fun f => f.id == itemAbove.id) unselectedItems
          some (jsSplice0 unselectedItems indexInUnselected selectedItems)
  | MoveDir.down =>
    match indices.max? with
    | none => none
    | some lastSelectedIndex =>
      if lastSelectedIndex = prev.length - 1 then some prev
      else
        match prev[lastSelectedIndex + 1]? with
        | none => none
        | some itemBelow =>
          let indexInUnselected :=
            jsFindIndex (fun f => f.id == itemBelow.id) unselectedItems
          some (jsSplice0 unselectedItems (indexInUnselected + 1) selectedItems)

/-- `handleMove` from `src/App.tsx`: group move when the moved id belongs
to a selection of size above 1, otherwise swap the entry with its
neighbour in the given direction via `arrayMove`, with boundary no-ops. -/
def handleMove (id : String) (direction : MoveDir) (s : AppState) :
    Option AppState :=
  if id ∈ s.selectedIds ∧ 1 < s.selectedIds.card then
    match moveGroup s.selectedIds direction s.files with
    | none => none
    | some newFiles => some { s with files := newFiles }
  else
    let index := jsFindIndex (fun f => f.id == id) s.files
    if index = -1 then some s
    else
      let newIndex := if direction = MoveDir.up then index - 1 else index + 1
      if newIndex < 0 ∨ (s.files.length : Int) ≤ newIndex then some s
      else
        match arrayMove s.files index newIndex with
        | none => none
        | some moved => some { s with files := moved }

/-- `handleDragEnd` from `src/App.tsx`.  No-op when there is no drop
target or the target is the dragged item itself.  When the dragged id
belongs to a selection of size above 1: dropping on an unselected target
splices the whole selected sub-sequence into the unselected sub-sequence,
after the target when the drag origin index was before the target's
original index and at the target's position otherwise; dropping on a
selected target falls back to `arrayMove`.  A plain single-item drag is an
`arrayMove` from the dragged index to the target index. -/
def handleDragEnd (activeId : String) (over : Option String) (s : AppState) :
    Option AppState :=
  match over with
  | none => some s
  | some overId =>
    if activeId = overId then some s
    else if activeId ∈ s.selectedIds ∧ 1 < s.selectedIds.card then
      let items := s.files
      let selectedItems := items.filter (fun f => decide (f.id ∈ s.selectedIds))
      let unselectedItems := items.filter (fun f => ! decide (f.id ∈ s.selectedIds))
      if overId ∉ s.selectedIds then
        let overIndexInUnselected :=
          jsFindIndex (fun f => f.id == overId) unselectedItems
        let originalActiveIndex := jsFindIndex (fun f => f.id == activeId) items
        let originalOverIndex := jsFindIndex (fun f => f.id == overId) items
        let newFiles :=
          if originalActiveIndex < originalOverIndex then
            jsSplice0 unselectedItems (overIndexInUnselected + 1) selectedItems
          else
            jsSplice0 unselectedItems overIndexInUnselected selectedItems
        some { s with files := newFiles }
      else
        let oldIndex := jsFindIndex (fun f => f.id == activeId) items
        let newIndex := jsFindIndex (fun f => f.id == overId) items
        match arrayMove items oldIndex newIndex with
        | none => none
        | some moved => some { s with files := moved }
    else
      let oldIndex := jsFindIndex (fun f => f.id == activeId) s.files
      let newIndex := jsFindIndex (fun f => f.id == overId) s.files
      match arrayMove s.files oldIndex newIndex with
      | none => none
      | some moved => some { s with files := moved }

/-- External conditions of one merge run: whether the standard-font
embedding calls in the placeholder branch succeed. -/
structure MergeEnv where
  fontOk : Bool
deriving DecidableEq

/-- One page of the merged output document.  `copied` is a page copied
from a source PDF with its stored rotation after `setRotation`; `raster`
is a freshly created page of the image's pixel size with the image drawn
at the origin; `placeholder` is the fixed A4 placeholder card carrying the
entry's file name. -/
inductive OutPage where
  | copied (content : Nat) (rotation : Int)
  | raster (w h : Nat) (jpeg : Bool) (rotation : Int)
  | placeholder (docName : String)
deriving DecidableEq

/-- A pipeline failure: the single error class of the `catch` handler. -/
inductive MergeErr where
  | loadFailed (docName : String)
  | embedFailed (docName : String)
  | fontFailed
deriving DecidableEq

/-- The MIME type checked by the image branch of `handleMerge`. -/
def jpegMime : String := "image/jpeg"

/-- The two JPEG name suffixes checked by the image branch. -/
def jpgSuffix : String := ".jpg"

/-- Second JPEG name suffix. -/
def jpegSuffix : String := ".jpeg"

/-- The JPEG test of the image branch of `handleMerge`:
`docFile.file.type === 'image/jpeg'` or a `.jpg` / `.jpeg` name suffix. -/
def isJpegEntry (docFile : DocFile) : Bool :=
  docFile.file.mime == jpegMime
    || docFile.file.name.toLower.endsWith jpgSuffix
    || docFile.file.name.toLower.endsWith jpegSuffix

/-- The per-entry step of `handleMerge` in `src/App.tsx`, dispatching on
the entry's `type`:
pdf: load the source document (fails on non-PDF bytes), copy all pages in
original order and set each copy's rotation to the page's existing
rotation plus the entry's rotation, as a plain sum;
image: embed as JPEG when `isJpegEntry`, else as PNG (each embed fails on
bytes of any other format), create a page of the image's size, draw the
image at the origin and set the page rotation to the entry's rotation;
any other type: embed the two standard fonts and draw the fixed A4
placeholder card with the entry's name. -/
def processEntry (env : MergeEnv) (docFile : DocFile) :
    Except MergeErr (List OutPage) :=
  match docFile.type with
  | DocType.pdf =>
    match docFile.file.data with
    | FileData.pdfPages pages =>
      Except.ok (pages.map (fun page =>
        OutPage.copied page.content (page.rotation + (docFile.rotation : Int))))
    | _ => Except.error (MergeErr.loadFailed docFile.name)
  | DocType.image =>
    if isJpegEntry docFile then
      match docFile.file.data with
      | FileData.jpgBytes w h =>
        Except.ok [OutPage.raster w h true (docFile.rotation : Int)]
      | _ => Except.error (MergeErr.embedFailed docFile.name)
    else
      match docFile.file.data with
      | FileData.pngBytes w h =>
        Except.ok [OutPage.raster w h false (docFile.rotation : Int)]
      | _ => Except.error (MergeErr.embedFailed docFile.name)
  | _ =>
    if env.fontOk then Except.ok [OutPage.placeholder docFile.name]
    else Except.error MergeErr.fontFailed

/-- The whole loop body of `handleMerge`: process the entries in list
order, appending each entry's output pages; the first failure aborts the
fold and discards every page accumulated so far. -/
def mergePipeline (env : MergeEnv) (files : List DocFile) :
    Except MergeErr (List OutPage) :=
  files.foldlM (fun acc docFile =>
    (processEntry env docFile).map (fun pages => acc ++ pages)) []

/-- `handleMerge` from `src/App.tsx`: early return on an empty list;
otherwise run the pipeline inside try/catch.  Result: the state after the
`finally` (processing flag cleared, list and selection untouched), the
produced artifact (`none` when the pipeline threw: the download is only
triggered after a fully successful save), and the number of user-facing
failure alerts shown. -/
def handleMerge (env : MergeEnv) (s : AppState) :
    AppState × Option (List OutPage) × Nat :=
  if s.files.length = 0 then (s, none, 0)
  else
    match mergePipeline env s.files with
    | Except.ok pages => ({ s with isProcessing := false }, some pages, 0)
    | Except.error _ => ({ s with isProcessing := false }, none, 1)

/-- The states reachable from the initial state by the handlers of
`src/App.tsx`, with ids drawn from the supply `gen`.  `handleMove` and
`handleDragEnd` step only when they return normally. -/
inductive Reaches (gen : Nat → String) : AppState → Prop where
  | init : Reaches gen initialState
  | filesSelected (s : AppState) (metas : List FileMeta) :
      Reaches gen s → Reaches gen (handleFilesSelected gen metas s)
  | rotate (s : AppState) (id : String) :
      Reaches gen s → Reaches gen (handleRotate id s)
  | bulkRotate (s : AppState) :
      Reaches gen s → Reaches gen (handleBulkRotate s)
  | deleteStep (s : AppState) (id : String) :
      Reaches gen s → Reaches gen (handleDelete id s)
  | bulkDelete (s : AppState) :
      Reaches gen s → Reaches gen (handleBulkDelete s)
  | clearStep (s : AppState) :
      Reaches gen s → Reaches gen (clearAll s)
  | toggleOne (s : AppState) (id : String) :
      Reaches gen s → Reaches gen (toggleSelection id s)
  | toggleAll (s : AppState) :
      Reaches gen s → Reaches gen (toggleSelectAll s)
  | move (s s₂ : AppState) (id : String) (direction : MoveDir) :
      Reaches gen s → handleMove id direction s = some s₂ → Reaches gen s₂
  | dragEnd (s s₂ : AppState) (activeId : String) (over : Option String) :
      Reaches gen s → handleDragEnd activeId over s = some s₂ → Reaches gen s₂
  | merge (s : AppState) (env : MergeEnv) :
      Reaches gen s → Reaches gen (handleMerge env s).1

/-! Concrete fixtures used by witnesses and counterexamples. -/

/-- A minimal text-type entry with the given id (metadata irrelevant to
the list-model claims). -/
def mkEntry (i : String) : DocFile :=
  { id := i
    file := { name := i, size := 1, mime := i, data := FileData.otherBytes }
    name := i
    size := 1
    type := DocType.text
    rotation := 0
    previewUrl := none }

def idA : String := "a"

def idB : String := "b"

def idC : String := "c"

def idD : String := "d"

def entryA : DocFile := mkEntry idA

def entryB : DocFile := mkEntry idB

def entryC : DocFile := mkEntry idC

def entryD : DocFile := mkEntry idD

/-- Selection of the ids of `entryA` and `entryC`. -/
def selAC : Finset String := {idA, idC}

/-- List in order B, A, C with A and C selected (spec Scenario 1). -/
def listBAC : List DocFile := [entryB, entryA, entryC]

/-- Four-entry state with A and C selected, for group-drag claims. -/
def stABCD : AppState :=
  { files := [entryA, entryB, entryC, entryD], selectedIds := selAC,
    isProcessing := false, counter := 4, revokedUrls := [] }

/-- Three-entry state with A and C selected, for the within-selection
drop claim. -/
def stABC : AppState :=
  { files := [entryA, entryB, entryC], selectedIds := selAC,
    isProcessing := false, counter := 3, revokedUrls := [] }

/-- A merge run in which font embedding succeeds. -/
def pdfEnv : MergeEnv := { fontOk := true }

/-- Single source page with pre-existing rotation 90. -/
def srcPage90 : SrcPage := { content := 0, rotation := 90 }

/-- Single source page with pre-existing rotation 270. -/
def srcPage270 : SrcPage := { content := 7, rotation := 270 }

/-- PDF entry with one source page at rotation 90 and user rotation 180. -/
def pdfEntry90 : DocFile :=
  { id := "p1"
    file := { name := "doc1.pdf", size := 3, mime := "application/pdf",
              data := FileData.pdfPages [srcPage90] }
    name := "doc1.pdf"
    size := 3
    type := DocType.pdf
    rotation := 180
    previewUrl := none }

/-- PDF entry with one source page at rotation 270 and user rotation 180. -/
def pdfEntry270 : DocFile :=
  { id := "p2"
    file := { name := "doc2.pdf", size := 3, mime := "application/pdf",
              data := FileData.pdfPages [srcPage270] }
    name := "doc2.pdf"
    size := 3
    type := DocType.pdf
    rotation := 180
    previewUrl := none }

/-- A PDF entry whose bytes `PDFDocument.load` rejects. -/
def brokenPdfEntry : DocFile :=
  { id := "bp"
    file := { name := "bad.pdf", size := 9, mime := "application/pdf",
              data := FileData.pdfBroken }
    name := "bad.pdf"
    size := 9
    type := DocType.pdf
    rotation := 0
    previewUrl := none }

/-- State holding one well-formed text entry and one broken PDF entry. -/
def stC7 : AppState :=
  { files := [entryA, brokenPdfEntry], selectedIds := {idA},
    isProcessing := false, counter := 2, revokedUrls := [] }

/-- Id of the image entry in the preview-release fixture. -/
def imgId : String := "img1"

/-- An image entry holding a live preview object URL. -/
def imgEntry : DocFile :=
  { id := imgId
    file := { name := "photo.png", size := 5, mime := "image/png",
              data := FileData.pngBytes 2 3 }
    name := "photo.png"
    size := 5
    type := DocType.image
    rotation := 0
    previewUrl := some (blobUrl 0) }

/-- State holding the image entry, selected, nothing revoked yet. -/
def stC6 : AppState :=
  { files := [imgEntry], selectedIds := {imgId},
    isProcessing := false, counter := 1, revokedUrls := [] }

/-- A stale id: present in the selection but not in the list. -/
def zId : String := "z"

/-- State with an empty list whose selection still holds the stale id. -/
def stC8 : AppState :=
  { files := [], selectedIds := {zId},
    isProcessing := false, counter := 0, revokedUrls := [] }

/-- One-entry state used by the absent-id no-op witness. -/
def stC8w : AppState :=
  { files := [entryA], selectedIds := {idA},
    isProcessing := false, counter := 1, revokedUrls := [] }

/-- Three-entry state with all three ids selected (spec Scenario 5). -/
def stC9 : AppState :=
  { files := [entryA, entryB, entryC], selectedIds := {idA, idB, idC},
    isProcessing := false, counter := 3, revokedUrls := [] }

/-- One-entry state with an empty selection, for the toggle claim. -/
def stC10 : AppState :=
  { files := [entryA], selectedIds := ∅,
    isProcessing := false, counter := 1, revokedUrls := [] }

/-- An injective id supply: the n-th draw is a string of n letters. -/
def genRun (n : Nat) : String := String.mk (List.replicate n 'a')

/-- A colliding id supply: every draw returns the same token. -/
def genConst (_ : Nat) : String := "x"

/-- Metadata of a small text upload. -/
def textMeta : FileMeta :=
  { name := "notes.txt", size := 2, mime := "text/plain",
    data := FileData.otherBytes }

/-! General lemmas about the JavaScript array primitives. -/

/-- A zero-delete splice is a permutation: it only interleaves. -/
theorem jsSplice0_perm {α : Type} (l : List α) (idx : Int) (items : List α) :
    (jsSplice0 l idx items).Perm (items ++ l) := by
  unfold jsSplice0
  have h := List.perm_append_comm_assoc
    (l.take (jsSpliceIndex l.length idx)) items (l.drop (jsSpliceIndex l.length idx))
  rw [List.take_append_drop] at h
  simpa [List.append_assoc] using h

/-- Removing the element at a valid index and re-consing it in front is a
permutation of the original list. -/
theorem cons_eraseIdx_perm {α : Type} {l : List α} {i : Nat} {a : α}
    (h : l[i]? = some a) : (a :: l.eraseIdx i).Perm l := by
  obtain ⟨hlt, hget⟩ := List.getElem?_eq_some.mp h
  rw [List.eraseIdx_eq_take_drop_succ]
  have hdrop : a :: List.drop (i + 1) l = List.drop i l := by
    rw [← hget]; exact List.getElem_cons_drop l i hlt
  have hmid : (a :: (List.take i l ++ List.drop (i + 1) l)).Perm
      (List.take i l ++ a :: List.drop (i + 1) l) := List.perm_middle.symm
  have hfin : List.take i l ++ a :: List.drop (i + 1) l = l := by
    rw [hdrop, List.take_append_drop]
  rw [hfin] at hmid
  exact hmid

/-- `arrayMove` permutes the list whenever it returns normally. -/
theorem arrayMove_perm {α : Type} {l out : List α} {i j : Int}
    (h : arrayMove l i j = some out) : out.Perm l := by
  simp only [arrayMove] at h
  cases hget : l[jsSpliceIndex l.length i]? with
  | none => rw [hget] at h; cases h
  | some a =>
    rw [hget] at h
    injection h with h
    subst h
    exact (jsSplice0_perm _ _ _).trans (cons_eraseIdx_perm hget)

/-- The two filters of the group operations recombine to a permutation of
the original list. -/
theorem filter_sel_perm (sel : Finset String) (l : List DocFile) :
    (l.filter (fun f => decide (f.id ∈ sel)) ++
      l.filter (fun f => ! decide (f.id ∈ sel))).Perm l :=
  List.filter_append_perm _ l

/-- `moveGroup` permutes the list whenever it returns normally. -/
theorem moveGroup_perm {sel : Finset String} {dir : MoveDir}
    {prev out : List DocFile} (h : moveGroup sel dir prev = some out) :
    out.Perm prev := by
  unfold moveGroup at h
  cases dir <;> dsimp only at h
  case up =>
    cases hmin : (((prev.enum.filter (fun q => decide (q.2.id ∈ sel))).map Prod.fst)).min? with
    | none => rw [hmin] at h; cases h
    | some m =>
      rw [hmin] at h
      dsimp only at h
      by_cases hm : m = 0
      · rw [if_pos hm] at h; injection h with h; subst h; exact List.Perm.refl _
      · rw [if_neg hm] at h
        cases hget : prev[m - 1]? with
        | none => rw [hget] at h; cases h
        | some itemAbove =>
          rw [hget] at h
          injection h with h
          subst h
          exact ((jsSplice0_perm _ _ _).trans (filter_sel_perm sel prev))
  case down =>
    cases hmax : (((prev.enum.filter (fun q => decide (q.2.id ∈ sel))).map Prod.fst)).max? with
    | none => rw [hmax] at h; cases h
    | some m =>
      rw [hmax] at h
      dsimp only at h
      by_cases hm : m = prev.length - 1
      · rw [if_pos hm] at h; injection h with h; subst h; exact List.Perm.refl _
      · rw [if_neg hm] at h
        cases hget : prev[m + 1]? with
        | none => rw [hget] at h; cases h
        | some itemBelow =>
          rw [hget] at h
          injection h with h
          subst h
          exact ((jsSplice0_perm _ _ _).trans (filter_sel_perm sel prev))

/-! Lemmas about selected indices, minima and lookup by id. -/

/-- Characterisation of `List.min?` on naturals. -/
theorem nat_min?_char {xs : List Nat} {m : Nat} :
    xs.min? = some m ↔ m ∈ xs ∧ ∀ b ∈ xs, m ≤ b :=
  List.min?_eq_some_iff (fun _ => Nat.le_refl _) (fun _ _ => min_choice _ _)
    (fun _ _ _ => le_min_iff)

/-- Membership in the index list computed by the group operations: `i` is
listed exactly when the entry at position `i` is selected. -/
theorem mem_selIndices_iff (sel : Finset String) (l : List DocFile) (i : Nat) :
    i ∈ (l.enum.filter (fun q => decide (q.2.id ∈ sel))).map Prod.fst ↔
      ∃ f, l[i]? = some f ∧ f.id ∈ sel := by
  constructor
  · intro h
    obtain ⟨q, hq, hqi⟩ := List.mem_map.mp h
    obtain ⟨hqe, hqsel⟩ := List.mem_filter.mp hq
    refine ⟨q.2, ?_, by simpa using hqsel⟩
    rw [← hqi]
    exact List.mem_enum_iff_getElem?.mp hqe
  · rintro ⟨f, hget, hsel⟩
    exact List.mem_map.mpr ⟨(i, f),
      List.mem_filter.mpr ⟨List.mem_enum_iff_getElem?.mpr hget, by simpa using hsel⟩, rfl⟩

/-- On a list with pairwise distinct ids, `findIdx?` by the id of a member
finds exactly that member. -/
theorem findIdx?_by_id {u : List DocFile} {a : DocFile}
    (hnodup : (u.map DocFile.id).Nodup) (ha : a ∈ u) :
    ∃ k, u.findIdx? (fun f => f.id == a.id) = some k ∧
      ∃ hk : k < u.length, u[k] = a := by
  have hex : ∃ x ∈ u, (fun f => f.id == a.id) x = true := ⟨a, ha, by simp⟩
  have hklt : u.findIdx (fun f => f.id == a.id) < u.length :=
    List.findIdx_lt_length.mpr hex
  refine ⟨u.findIdx (fun f => f.id == a.id),
    List.findIdx?_eq_some_iff_findIdx_eq.mpr ⟨hklt, rfl⟩, hklt, ?_⟩
  have hpk : (u[u.findIdx (fun f => f.id == a.id)].id == a.id) = true :=
    List.findIdx_getElem (w := hklt)
  exact List.inj_on_of_nodup_map hnodup (List.getElem_mem hklt) ha (by simpa using hpk)

/-! Claim C1: group move up. -/

/-- C1: on a list with pairwise distinct ids and a selection of size
above 1 all of whose ids occur in the list, the group-move-up operation is
a no-op when the first selected index is 0; otherwise the result consists
of the unselected entries in their original order with the selected
entries spliced in as one contiguous block, in their original relative
order, sitting immediately before the anchor — the entry that originally
preceded the topmost selected entry. -/
theorem moveGroup_up_correct (sel : Finset String) (l : List DocFile)
    (hnodup : (l.map DocFile.id).Nodup)
    (hcard : 1 < sel.card)
    (hsub : ∀ x ∈ sel, x ∈ l.map DocFile.id) :
    (l.findIdx (fun f => decide (f.id ∈ sel)) = 0 →
      moveGroup sel MoveDir.up l = some l) ∧
    (l.findIdx (fun f => decide (f.id ∈ sel)) ≠ 0 →
      ∃ anchor pre suf,
        l[l.findIdx (fun f => decide (f.id ∈ sel)) - 1]? = some anchor ∧
        pre ++ anchor :: suf = l.filter (fun f => ! decide (f.id ∈ sel)) ∧
        (∀ g ∈ pre, g.id ∉ sel) ∧ anchor.id ∉ sel ∧ (∀ g ∈ suf, g.id ∉ sel) ∧
        moveGroup sel MoveDir.up l =
          some (pre ++ l.filter (fun f => decide (f.id ∈ sel)) ++ anchor :: suf)) := by
  have hpos : 0 < sel.card := by omega
  obtain ⟨x, hxsel⟩ := Finset.card_pos.mp hpos
  obtain ⟨fx, hfx, hfxid⟩ := List.mem_map.mp (hsub x hxsel)
  have hex : ∃ f ∈ l, (fun f => decide (f.id ∈ sel)) f = true :=
    ⟨fx, hfx, by simp [hfxid, hxsel]⟩
  have hmlt : l.findIdx (fun f => decide (f.id ∈ sel)) < l.length :=
    List.findIdx_lt_length.mpr hex
  have hminchar :
      ((l.enum.filter (fun q => decide (q.2.id ∈ sel))).map Prod.fst).min? =
        some (l.findIdx (fun f => decide (f.id ∈ sel))) := by
    rw [nat_min?_char]
    constructor
    · rw [mem_selIndices_iff]
      refine ⟨l[l.findIdx (fun f => decide (f.id ∈ sel))],
        List.getElem?_eq_getElem hmlt, ?_⟩
      have := List.findIdx_getElem (p := fun f : DocFile => decide (f.id ∈ sel))
        (w := hmlt)
      simpa using this
    · intro b hb
      obtain ⟨f, hget, hfsel⟩ := (mem_selIndices_iff sel l b).mp hb
      by_contra hlt
      push_neg at hlt
      have hnb := List.not_of_lt_findIdx
        (p := fun f : DocFile => decide (f.id ∈ sel)) hlt
      obtain ⟨hblt, hbeq⟩ := List.getElem?_eq_some.mp hget
      rw [hbeq] at hnb
      simp [hfsel] at hnb
  constructor
  · intro h0
    simp only [moveGroup, hminchar]
    rw [if_pos h0]
  · intro hne
    have hm1lt : l.findIdx (fun f => decide (f.id ∈ sel)) - 1 < l.length :=
      lt_of_le_of_lt (Nat.sub_le _ _) hmlt
    have hanchget : l[l.findIdx (fun f => decide (f.id ∈ sel)) - 1]? =
        some l[l.findIdx (fun f => decide (f.id ∈ sel)) - 1] :=
      List.getElem?_eq_getElem hm1lt
    have hm1sub : l.findIdx (fun f => decide (f.id ∈ sel)) - 1 <
        l.findIdx (fun f => decide (f.id ∈ sel)) := by omega
    have hanchp : (fun f => decide (f.id ∈ sel))
        l[l.findIdx (fun f => decide (f.id ∈ sel)) - 1] = false :=
      List.not_of_lt_findIdx hm1sub
    have hanchsel : l[l.findIdx (fun f => decide (f.id ∈ sel)) - 1].id ∉ sel := by
      simpa using hanchp
    have hanchU : l[l.findIdx (fun f => decide (f.id ∈ sel)) - 1] ∈
        l.filter (fun f => ! decide (f.id ∈ sel)) :=
      List.mem_filter.mpr ⟨List.getElem_mem hm1lt, by simp [hanchsel]⟩
    have hnodupU : ((l.filter (fun f => ! decide (f.id ∈ sel))).map DocFile.id).Nodup :=
      ((List.filter_sublist l).map DocFile.id).nodup hnodup
    obtain ⟨k, hkfind, hklt, hkelem⟩ := findIdx?_by_id hnodupU hanchU
    have hjs : jsFindIndex
        (fun f => f.id == l[l.findIdx (fun f => decide (f.id ∈ sel)) - 1].id)
        (l.filter (fun f => ! decide (f.id ∈ sel))) = (k : Int) := by
      unfold jsFindIndex
      rw [hkfind]
    have hspliceIdx : jsSpliceIndex (l.filter (fun f => ! decide (f.id ∈ sel))).length
        (k : Int) = k := by
      unfold jsSpliceIndex
      rw [if_neg (by omega)]
      simp [min_eq_left (Nat.le_of_lt hklt)]
    refine ⟨l[l.findIdx (fun f => decide (f.id ∈ sel)) - 1],
      (l.filter (fun f => ! decide (f.id ∈ sel))).take k,
      (l.filter (fun f => ! decide (f.id ∈ sel))).drop (k + 1),
      hanchget, ?_, ?_, hanchsel, ?_, ?_⟩
    · rw [← hkelem, List.getElem_cons_drop, List.take_append_drop]
    · intro g hg
      have hgU := (List.take_sublist _ _).subset hg
      have := (List.mem_filter.mp hgU).2
      simpa using this
    · intro g hg
      have hgU := (List.drop_sublist _ _).subset hg
      have := (List.mem_filter.mp hgU).2
      simpa using this
    · simp only [moveGroup, hminchar]
      rw [if_neg hne, hanchget]
      simp only [Option.some.injEq]
      rw [hjs]
      unfold jsSplice0
      rw [hspliceIdx]
      have hdropk : (l.filter (fun f => ! decide (f.id ∈ sel))).drop k =
          l[l.findIdx (fun f => decide (f.id ∈ sel)) - 1] ::
            (l.filter (fun f => ! decide (f.id ∈ sel))).drop (k + 1) := by
        rw [← hkelem, List.getElem_cons_drop]
      dsimp only
      rw [hdropk]

/-- C1 witness: spec Scenario 1 — on the list B, A, C with A and C
selected the move is not blocked (first selected index is 1), and the
theorem's conclusion holds; concretely the result is A, C, B. -/
theorem moveGroup_up_correct_witness :
    ((listBAC.findIdx (fun f => decide (f.id ∈ selAC)) = 0 →
        moveGroup selAC MoveDir.up listBAC = some listBAC) ∧
      (listBAC.findIdx (fun f => decide (f.id ∈ selAC)) ≠ 0 →
        ∃ anchor pre suf,
          listBAC[listBAC.findIdx (fun f => decide (f.id ∈ selAC)) - 1]? = some anchor ∧
          pre ++ anchor :: suf = listBAC.filter (fun f => ! decide (f.id ∈ selAC)) ∧
          (∀ g ∈ pre, g.id ∉ selAC) ∧ anchor.id ∉ selAC ∧ (∀ g ∈ suf, g.id ∉ selAC) ∧
          moveGroup selAC MoveDir.up listBAC =
            some (pre ++ listBAC.filter (fun f => decide (f.id ∈ selAC)) ++
              anchor :: suf))) ∧
    moveGroup selAC MoveDir.up listBAC = some [entryA, entryC, entryB] :=
  ⟨moveGroup_up_correct selAC listBAC (by decide) (by decide) (by decide), by decide⟩

/-! Claim C2: group drag onto an unselected target. -/

/-- C2: on a list with distinct ids, with a selection of size above 1
containing the dragged id and an unselected drop target present in the
list, `handleDragEnd` removes the selected entries and reinserts them as
one block into the sequence of unselected entries: immediately after the
target entry when the drag origin's original index is strictly below the
target's original index, and immediately at (before) the target's
position otherwise; the relative order inside the selected block and
inside the unselected remainder is preserved. -/
theorem dragEnd_group_insert (s : AppState) (activeId overId : String)
    (hnodup : (s.files.map DocFile.id).Nodup)
    (hact : activeId ∈ s.files.map DocFile.id)
    (hover : overId ∈ s.files.map DocFile.id)
    (hsel : activeId ∈ s.selectedIds)
    (hcard : 1 < s.selectedIds.card)
    (hoverU : overId ∉ s.selectedIds) :
    ∃ pre overEntry suf,
      overEntry.id = overId ∧
      pre ++ overEntry :: suf =
        s.files.filter (fun f => ! decide (f.id ∈ s.selectedIds)) ∧
      (∀ g ∈ pre, g.id ∉ s.selectedIds) ∧ (∀ g ∈ suf, g.id ∉ s.selectedIds) ∧
      (jsFindIndex (fun f => f.id == activeId) s.files <
          jsFindIndex (fun f => f.id == overId) s.files →
        handleDragEnd activeId (some overId) s = some { s with files :=
          pre ++ overEntry ::
            (s.files.filter (fun f => decide (f.id ∈ s.selectedIds)) ++ suf) }) ∧
      (¬ (jsFindIndex (fun f => f.id == activeId) s.files <
            jsFindIndex (fun f => f.id == overId) s.files) →
        handleDragEnd activeId (some overId) s = some { s with files :=
          (pre ++ s.files.filter (fun f => decide (f.id ∈ s.selectedIds)) ++
            overEntry :: suf) }) := by
  have hne : activeId ≠ overId := fun h => hoverU (h ▸ hsel)
  obtain ⟨fo, hfo, hfoid⟩ := List.mem_map.mp hover
  have hfoU : fo ∈ s.files.filter (fun f => ! decide (f.id ∈ s.selectedIds)) :=
    List.mem_filter.mpr ⟨hfo, by simp [hfoid, hoverU]⟩
  have hnodupU : ((s.files.filter (fun f => ! decide (f.id ∈ s.selectedIds))).map
      DocFile.id).Nodup :=
    ((List.filter_sublist s.files).map DocFile.id).nodup hnodup
  obtain ⟨k, hkfind, hklt, hkelem⟩ := findIdx?_by_id hnodupU hfoU
  have hkfind2 : (s.files.filter (fun f => ! decide (f.id ∈ s.selectedIds))).findIdx?
      (fun f => f.id == overId) = some k := by
    rw [← hfoid]
    exact hkfind
  have hjs : jsFindIndex (fun f => f.id == overId)
      (s.files.filter (fun f => ! decide (f.id ∈ s.selectedIds))) = (k : Int) := by
    unfold jsFindIndex
    rw [hkfind2]
  have hsplicek : jsSpliceIndex
      (s.files.filter (fun f => ! decide (f.id ∈ s.selectedIds))).length (k : Int) = k := by
    unfold jsSpliceIndex
    rw [if_neg (by omega)]
    simp [min_eq_left (Nat.le_of_lt hklt)]
  have hcast : ((k : Int) + 1) = ((k + 1 : Nat) : Int) := by push_cast; ring
  have hsplicek1 : jsSpliceIndex
      (s.files.filter (fun f => ! decide (f.id ∈ s.selectedIds))).length
      ((k : Int) + 1) = k + 1 := by
    unfold jsSpliceIndex
    rw [if_neg (by omega), hcast]
    simp [min_eq_left (Nat.succ_le_of_lt hklt)]
  have hdropk : (s.files.filter (fun f => ! decide (f.id ∈ s.selectedIds))).drop k =
      fo :: (s.files.filter (fun f => ! decide (f.id ∈ s.selectedIds))).drop (k + 1) := by
    rw [← hkelem, List.getElem_cons_drop]
  have htakek : (s.files.filter (fun f => ! decide (f.id ∈ s.selectedIds))).take (k + 1) =
      (s.files.filter (fun f => ! decide (f.id ∈ s.selectedIds))).take k ++ [fo] := by
    rw [List.take_succ, List.getElem?_eq_getElem hklt, hkelem]
    rfl
  refine ⟨(s.files.filter (fun f => ! decide (f.id ∈ s.selectedIds))).take k, fo,
    (s.files.filter (fun f => ! decide (f.id ∈ s.selectedIds))).drop (k + 1),
    hfoid, ?_, ?_, ?_, ?_, ?_⟩
  · rw [← hkelem, List.getElem_cons_drop, List.take_append_drop]
  · intro g hg
    have hgU := (List.take_sublist _ _).subset hg
    have := (List.mem_filter.mp hgU).2
    simpa using this
  · intro g hg
    have hgU := (List.drop_sublist _ _).subset hg
    have := (List.mem_filter.mp hgU).2
    simpa using this
  · intro hcmp
    simp only [handleDragEnd]
    rw [if_neg hne, if_pos ⟨hsel, hcard⟩, if_pos hoverU]
    rw [if_pos hcmp, hjs]
    unfold jsSplice0
    dsimp only
    rw [hsplicek1, htakek]
    simp [List.append_assoc]
  · intro hcmp
    simp only [handleDragEnd]
    rw [if_neg hne, if_pos ⟨hsel, hcard⟩, if_pos hoverU]
    rw [if_neg hcmp, hjs]
    unfold jsSplice0
    dsimp only
    rw [hsplicek, hdropk]

/-- C2 witness: dragging A (index 0, with A and C selected) onto the
unselected D (index 3) of the list A, B, C, D inserts the block after D:
the result is B, D, A, C. -/
theorem dragEnd_group_insert_witness :
    (∃ pre overEntry suf,
      overEntry.id = idD ∧
      pre ++ overEntry :: suf =
        stABCD.files.filter (fun f => ! decide (f.id ∈ stABCD.selectedIds)) ∧
      (∀ g ∈ pre, g.id ∉ stABCD.selectedIds) ∧
      (∀ g ∈ suf, g.id ∉ stABCD.selectedIds) ∧
      (jsFindIndex (fun f => f.id == idA) stABCD.files <
          jsFindIndex (fun f => f.id == idD) stABCD.files →
        handleDragEnd idA (some idD) stABCD = some { stABCD with files :=
          pre ++ overEntry ::
            (stABCD.files.filter (fun f => decide (f.id ∈ stABCD.selectedIds)) ++
              suf) }) ∧
      (¬ (jsFindIndex (fun f => f.id == idA) stABCD.files <
            jsFindIndex (fun f => f.id == idD) stABCD.files) →
        handleDragEnd idA (some idD) stABCD = some { stABCD with files :=
          (pre ++ stABCD.files.filter (fun f => decide (f.id ∈ stABCD.selectedIds)) ++
            overEntry :: suf) })) ∧
    handleDragEnd idA (some idD) stABCD =
      some { stABCD with files := [entryB, entryD, entryA, entryC] } :=
  ⟨dragEnd_group_insert stABCD idA idD (by decide) (by decide) (by decide)
      (by decide) (by decide) (by decide), by decide⟩

/-! Claim C3: drop onto another selected entry. -/

/-- C3 counterexample: the claim's "plain index swap" fails on the code.
In the list A, B, C with A and C selected, dragging A onto C yields
B, C, A (dnd-kit's remove-and-reinsert array move), not the swapped list
C, B, A that the claim predicts. -/
theorem dragEnd_within_selection_cex :
    handleDragEnd idA (some idC) stABC =
      some { stABC with files := [entryB, entryC, entryA] } ∧
    ¬ (handleDragEnd idA (some idC) stABC =
      some { stABC with files := [entryC, entryB, entryA] }) := by decide

/-- C3 (amended): when both the dragged id and the drop target belong to
a selection of size above 1, `handleDragEnd` falls back to dnd-kit's
`arrayMove`: the dragged entry is removed from its index and reinserted
at the target's original index, shifting the entries in between by one
position; this coincides with a plain index swap only when the two
positions are adjacent. -/
theorem dragEnd_within_selection (s : AppState) (activeId overId : String)
    (hnodup : (s.files.map DocFile.id).Nodup)
    (hact : activeId ∈ s.files.map DocFile.id)
    (hover : overId ∈ s.files.map DocFile.id)
    (hselA : activeId ∈ s.selectedIds)
    (hselO : overId ∈ s.selectedIds)
    (hcard : 1 < s.selectedIds.card)
    (hne : activeId ≠ overId) :
    ∃ aEntry i j,
      s.files.findIdx? (fun f => f.id == activeId) = some i ∧
      s.files.findIdx? (fun f => f.id == overId) = some j ∧
      s.files[i]? = some aEntry ∧ aEntry.id = activeId ∧
      handleDragEnd activeId (some overId) s = some { s with files :=
        ((s.files.eraseIdx i).take j ++ aEntry :: (s.files.eraseIdx i).drop j) } := by
  obtain ⟨fa, hfa, hfaid⟩ := List.mem_map.mp hact
  obtain ⟨fo, hfo, hfoid⟩ := List.mem_map.mp hover
  obtain ⟨i, hifind, hilt, hielem⟩ := findIdx?_by_id hnodup hfa
  obtain ⟨j, hjfind, hjlt, hjelem⟩ := findIdx?_by_id hnodup hfo
  rw [hfaid] at hifind
  rw [hfoid] at hjfind
  have hjsa : jsFindIndex (fun f => f.id == activeId) s.files = (i : Int) := by
    unfold jsFindIndex
    rw [hifind]
  have hjso : jsFindIndex (fun f => f.id == overId) s.files = (j : Int) := by
    unfold jsFindIndex
    rw [hjfind]
  have hgeti : s.files[i]? = some fa := by
    rw [List.getElem?_eq_getElem hilt, hielem]
  have hsi : jsSpliceIndex s.files.length (i : Int) = i := by
    unfold jsSpliceIndex
    rw [if_neg (by omega)]
    simp [min_eq_left (Nat.le_of_lt hilt)]
  have hlen2 : (s.files.eraseIdx i).length = s.files.length - 1 := by
    rw [List.length_eraseIdx]
    simp [hilt]
  have hsj : jsSpliceIndex (s.files.eraseIdx i).length (j : Int) = j := by
    unfold jsSpliceIndex
    rw [if_neg (by omega), hlen2]
    have hj1 : j ≤ s.files.length - 1 := by omega
    simp [min_eq_left hj1]
  have harr : arrayMove s.files (i : Int) (j : Int) =
      some ((s.files.eraseIdx i).take j ++ fa :: (s.files.eraseIdx i).drop j) := by
    simp only [arrayMove]
    rw [hsi, hgeti]
    dsimp only
    rw [if_neg (by omega)]
    unfold jsSplice0
    rw [hsj]
    simp [List.append_assoc]
  refine ⟨fa, i, j, hifind, hjfind, hgeti, hfaid, ?_⟩
  simp only [handleDragEnd]
  rw [if_neg hne, if_pos ⟨hselA, hcard⟩, if_neg (not_not_intro hselO), hjsa, hjso, harr]

/-- C3 witness: in the list A, B, C with A and C selected, dragging A
(index 0) onto C (index 2) applies the array move: the result is B, C, A. -/
theorem dragEnd_within_selection_witness :
    (∃ aEntry i j,
      stABC.files.findIdx? (fun f => f.id == idA) = some i ∧
      stABC.files.findIdx? (fun f => f.id == idC) = some j ∧
      stABC.files[i]? = some aEntry ∧ aEntry.id = idA ∧
      handleDragEnd idA (some idC) stABC = some { stABC with files :=
        ((stABC.files.eraseIdx i).take j ++ aEntry ::
          (stABC.files.eraseIdx i).drop j) }) ∧
    handleDragEnd idA (some idC) stABC =
      some { stABC with files := [entryB, entryC, entryA] } :=
  ⟨dragEnd_within_selection stABC idA idC (by decide) (by decide) (by decide)
      (by decide) (by decide) (by decide) (by decide), by decide⟩

/-! Claim C10: toggleSelect ignores the document list. -/

/-- C10: `toggleSelection` toggles membership of the given id in the
selection set without consulting the document list: the list is left
unchanged, an absent id (even one that is no entry's id) is inserted, a
present id is removed, and the resulting selection depends only on the
previous selection, never on the list.  Hence the invariant that the
selection only contains live ids rests entirely on callers passing live
ids. -/
theorem toggleSelection_spec (s : AppState) (x : String) :
    (toggleSelection x s).files = s.files ∧
    (x ∉ s.selectedIds → (toggleSelection x s).selectedIds = insert x s.selectedIds) ∧
    (x ∈ s.selectedIds → (toggleSelection x s).selectedIds = s.selectedIds.erase x) ∧
    (∀ t : AppState, t.selectedIds = s.selectedIds →
      (toggleSelection x t).selectedIds = (toggleSelection x s).selectedIds) := by
  refine ⟨rfl, ?_, ?_, ?_⟩
  · intro h; simp [toggleSelection, h]
  · intro h; simp [toggleSelection, h]
  · intro t ht; simp [toggleSelection, ht]

/-- C10 witness: toggling an id that is in no entry of the list still
inserts it into the selection. -/
theorem toggleSelection_spec_witness :
    zId ∉ stC10.selectedIds ∧ zId ∉ stC10.files.map DocFile.id ∧
    (toggleSelection zId stC10).selectedIds = insert zId stC10.selectedIds :=
  ⟨by decide, by decide, (toggleSelection_spec stC10 zId).2.1 (by decide)⟩

/-! Claim C9: toggleSelectAll. -/

/-- C9: on a state satisfying the data-model invariants (selection only
holds ids of entries, entry ids are distinct), `toggleSelectAll` clears
the selection exactly when the selection's size equals the list's length,
and otherwise sets the selection to the set of all ids in the list. -/
theorem toggleSelectAll_spec (s : AppState)
    (hnodup : (s.files.map DocFile.id).Nodup)
    (hinv : ∀ y ∈ s.selectedIds, y ∈ s.files.map DocFile.id) :
    ((toggleSelectAll s).selectedIds = ∅ ↔ s.selectedIds.card = s.files.length) ∧
    (s.selectedIds.card ≠ s.files.length →
      (toggleSelectAll s).selectedIds = (s.files.map DocFile.id).toFinset) := by
  by_cases h : s.selectedIds.card = s.files.length
  · refine ⟨⟨fun _ => h, fun _ => by simp [toggleSelectAll, h]⟩, fun hc => absurd h hc⟩
  · have hres : (toggleSelectAll s).selectedIds = (s.files.map DocFile.id).toFinset := by
      simp [toggleSelectAll, h]
    refine ⟨⟨?_, fun hcard => absurd hcard h⟩, fun _ => hres⟩
    intro habs
    rw [hres] at habs
    exfalso
    apply h
    have hsub : s.selectedIds ⊆ (s.files.map DocFile.id).toFinset := fun y hy =>
      List.mem_toFinset.mpr (hinv y hy)
    have hle := Finset.card_le_card hsub
    rw [habs] at hle
    simp only [Finset.card_empty, Nat.le_zero] at hle
    have hzero := congrArg Finset.card habs
    rw [List.toFinset_card_of_nodup hnodup, List.length_map] at hzero
    simp only [Finset.card_empty] at hzero
    rw [hle, hzero]

/-- C9 witness: spec Scenario 5 — on a list of 3 entries with all 3
selected, `toggleSelectAll` empties the selection. -/
theorem toggleSelectAll_spec_witness :
    stC9.selectedIds.card = stC9.files.length ∧
    (toggleSelectAll stC9).selectedIds = ∅ :=
  ⟨by decide, ((toggleSelectAll_spec stC9 (by decide) (by decide)).1).mpr (by decide)⟩

/-! Claim C8: operations on ids absent from the list. -/

/-- C8 counterexample: the claim fails as stated on a state whose
selection holds a stale id.  With an empty document list and the stale id
still selected, `delete(z)` does change the selection set (it erases the
stale id), although `z` is not present in the list. -/
theorem absent_id_noop_cex :
    zId ∉ stC8.files.map DocFile.id ∧
    (handleDelete zId stC8).selectedIds ≠ stC8.selectedIds := by decide

/-- C8 (amended): on a state satisfying the documented invariant that the
selection only contains ids of entries in the list, `rotate(x)`,
`delete(x)` and `moveSingle(x, direction)` with an id `x` absent from the
list leave the list and the selection set unchanged, and the move handler
returns normally (no raised error). -/
theorem absent_id_noop (s : AppState) (x : String) (direction : MoveDir)
    (hinv : ∀ y ∈ s.selectedIds, y ∈ s.files.map DocFile.id)
    (habs : x ∉ s.files.map DocFile.id) :
    handleRotate x s = s ∧ handleDelete x s = s ∧
    handleMove x direction s = some s := by
  have hxsel : x ∉ s.selectedIds := fun hx => habs (hinv x hx)
  have hxid : ∀ f ∈ s.files, f.id ≠ x := by
    intro f hf he
    exact habs (List.mem_map.mpr ⟨f, hf, he⟩)
  have hnone : s.files.findIdx? (fun f => f.id == x) = none :=
    List.findIdx?_eq_none_iff.mpr (fun f hf => by
      simpa using hxid f hf)
  refine ⟨?_, ?_, ?_⟩
  · unfold handleRotate
    have hmap : s.files.map (fun f =>
        if f.id = x then { f with rotation := (f.rotation + 90) % 360 } else f)
        = s.files := by
      have := List.map_congr_left (l := s.files)
        (f := fun f => if f.id = x then { f with rotation := (f.rotation + 90) % 360 } else f)
        (g := fun f => f)
        (fun f hf => by simp [hxid f hf])
      simpa using this
    rw [hmap]
  · unfold handleDelete
    have hfil : s.files.filter (fun f => f.id != x) = s.files :=
      List.filter_eq_self.mpr (fun f hf => by simpa using hxid f hf)
    rw [hfil, Finset.erase_eq_of_not_mem hxsel]
  · unfold handleMove
    rw [if_neg (fun hc => hxsel hc.1)]
    simp [jsFindIndex, hnone]

/-- C8 witness: with a live one-entry list whose selection holds only the
live id, the three operations on a foreign id are all no-ops. -/
theorem absent_id_noop_witness :
    zId ∉ stC8w.files.map DocFile.id ∧
    (handleRotate zId stC8w = stC8w ∧ handleDelete zId stC8w = stC8w ∧
      handleMove zId MoveDir.up stC8w = some stC8w) :=
  ⟨by decide, absent_id_noop stC8w zId MoveDir.up (by decide) (by decide)⟩

/-! Claim C6: delete and the preview resource. -/

/-- C6: `handleDelete` on the id of an image entry that holds a live
preview object URL removes exactly that entry from the list and removes
the id from the selection set, and a second delete of the same id changes
nothing — but it performs no release of the preview resource at all: the
revocation log is left untouched (the source contains no
`URL.revokeObjectURL` call for entry previews), contradicting the
required "releases its preview resource exactly once". -/
theorem handleDelete_no_preview_release :
    imgEntry.previewUrl = some (blobUrl 0) ∧
    (handleDelete imgId stC6).files = [] ∧
    (handleDelete imgId stC6).selectedIds = ∅ ∧
    (handleDelete imgId stC6).revokedUrls = stC6.revokedUrls ∧
    handleDelete imgId (handleDelete imgId stC6) = handleDelete imgId stC6 := by
  decide

/-! Claim C4: additive page rotation in the pdf merge branch. -/

/-- C4 counterexample: the claim's "summed mod 360" fails on the code.
For a source page with pre-existing rotation 270 merged under entry
rotation 180, the pipeline stores rotation 450 on the output page — the
plain sum — while the mod-360 sum would be 90. -/
theorem pdf_rotation_mod_cex :
    processEntry pdfEnv pdfEntry270 = Except.ok [OutPage.copied 7 450] ∧
    ¬ ((450 : Int) = (270 + 180) % 360) := ⟨rfl, by decide⟩

/-- C4 (amended): for every entry of docType pdf whose bytes load as a
document, the merge pipeline copies the pages in original order and sets
each output page's rotation to the page's pre-existing rotation plus the
entry's rotationDegrees as a plain sum, with no mod-360 reduction; the
stored value therefore agrees with the claimed mod-360 sum exactly when
the plain sum is below 360, as in the concrete 90 + 180 = 270 case. -/
theorem pdf_rotation_additive (env : MergeEnv) (docFile : DocFile)
    (pages : List SrcPage)
    (ht : docFile.type = DocType.pdf)
    (hd : docFile.file.data = FileData.pdfPages pages) :
    processEntry env docFile =
      Except.ok (pages.map (fun page =>
        OutPage.copied page.content (page.rotation + (docFile.rotation : Int)))) ∧
    ∀ page ∈ pages,
      (page.rotation + (docFile.rotation : Int)) % 360 =
        (page.rotation + (docFile.rotation : Int)) % 360 ∧
      (0 ≤ page.rotation + (docFile.rotation : Int) ∧
        page.rotation + (docFile.rotation : Int) < 360 →
        page.rotation + (docFile.rotation : Int) =
          (page.rotation + (docFile.rotation : Int)) % 360) := by
  constructor
  · simp [processEntry, ht, hd]
  · intro page _
    exact ⟨rfl, fun hb => (Int.emod_eq_of_lt hb.1 hb.2).symm⟩

/-- C4 witness: the claim's concrete case — a single-page pdf with
existing page rotation 90 merged with entry rotation 180 yields output
page rotation 270, which equals the mod-360 sum. -/
theorem pdf_rotation_additive_witness :
    pdfEntry90.type = DocType.pdf ∧
    processEntry pdfEnv pdfEntry90 = Except.ok [OutPage.copied 0 270] ∧
    (270 : Int) = (90 + 180) % 360 :=
  ⟨rfl, (pdf_rotation_additive pdfEnv pdfEntry90 [srcPage90] rfl rfl).1, by decide⟩

/-! Claim C7: merge failures abort the whole pipeline atomically. -/

/-- Any failing entry makes the whole ordered fold fail, whatever pages
were already accumulated. -/
theorem mergePipeline_error_of_mem (env : MergeEnv) (files : List DocFile)
    (h : ∃ f ∈ files, ∃ e, processEntry env f = Except.error e) :
    ∀ acc : List OutPage, ∃ e,
      files.foldlM (fun acc docFile =>
        (processEntry env docFile).map (fun pages => acc ++ pages)) acc =
        Except.error e := by
  induction files with
  | nil => simp at h
  | cons g rest ih =>
    intro acc
    obtain ⟨f, hf, e, he⟩ := h
    cases hpe : processEntry env g with
    | error e2 =>
      refine ⟨e2, ?_⟩
      rw [List.foldlM_cons, hpe]
      rfl
    | ok ps =>
      have hf2 : f ∈ rest := by
        rcases List.mem_cons.mp hf with h1 | h1
        · rw [h1, hpe] at he; cases he
        · exact h1
      obtain ⟨e3, he3⟩ := ih ⟨f, hf2, e, he⟩ (acc ++ ps)
      refine ⟨e3, ?_⟩
      rw [List.foldlM_cons, hpe]
      exact he3

/-- C7: if any per-entry step of the merge pipeline fails, the whole
merge aborts atomically: the pipeline returns an error (so no output
artifact is produced, not even from a successfully processed prefix of
the list), exactly one user-facing failure is reported, and the document
list and the selection set are exactly as they were before the merge
attempt. -/
theorem merge_abort_atomic (env : MergeEnv) (s : AppState)
    (hfail : ∃ f ∈ s.files, ∃ e, processEntry env f = Except.error e) :
    (∃ e, mergePipeline env s.files = Except.error e) ∧
    (handleMerge env s).2.1 = none ∧
    (handleMerge env s).2.2 = 1 ∧
    (handleMerge env s).1.files = s.files ∧
    (handleMerge env s).1.selectedIds = s.selectedIds := by
  obtain ⟨e, hpipe⟩ := mergePipeline_error_of_mem env s.files hfail []
  have hpipe2 : mergePipeline env s.files = Except.error e := hpipe
  have hne : s.files ≠ [] := by
    obtain ⟨f, hf, _⟩ := hfail
    intro hnil
    rw [hnil] at hf
    cases hf
  have hlen : ¬ s.files.length = 0 := by
    simpa [List.length_eq_zero] using hne
  refine ⟨⟨e, hpipe2⟩, ?_, ?_, ?_, ?_⟩ <;>
    simp [handleMerge, hne, hlen, hpipe2]

/-- C7 witness: a list holding a healthy text entry followed by a broken
PDF entry merges to no artifact, one failure report, and an untouched
list and selection. -/
theorem merge_abort_atomic_witness :
    (∃ e, mergePipeline pdfEnv stC7.files = Except.error e) ∧
    (handleMerge pdfEnv stC7).2.1 = none ∧
    (handleMerge pdfEnv stC7).2.2 = 1 ∧
    (handleMerge pdfEnv stC7).1.files = stC7.files ∧
    (handleMerge pdfEnv stC7).1.selectedIds = stC7.selectedIds :=
  merge_abort_atomic pdfEnv stC7
    ⟨brokenPdfEntry, by simp [stC7],
      MergeErr.loadFailed brokenPdfEntry.name, rfl⟩

/-! Claim C5: id uniqueness across reachable states. -/

/-- Mapping an id-preserving function over a list leaves the id list
unchanged. -/
theorem map_ids_preserved (g : DocFile → DocFile) (hg : ∀ f, (g f).id = f.id)
    (l : List DocFile) : (l.map g).map DocFile.id = l.map DocFile.id := by
  rw [List.map_map]
  exact List.map_congr_left (fun f _ => hg f)

/-- The id list after an ingestion: the old ids followed by the freshly
drawn ones, in draw order. -/
theorem handleFilesSelected_ids (gen : Nat → String) (metas : List FileMeta)
    (s : AppState) :
    (handleFilesSelected gen metas s).files.map DocFile.id =
      s.files.map DocFile.id ++
        (List.range metas.length).map (fun k => gen (s.counter + k)) := by
  simp only [handleFilesSelected]
  rw [List.map_append]
  congr 1
  rw [List.map_map, ← List.enum_map_fst metas, List.map_map]
  rfl

/-- `handleMerge` never touches the list, the selection or the counter. -/
theorem handleMerge_fst (env : MergeEnv) (s : AppState) :
    (handleMerge env s).1.files = s.files ∧
    (handleMerge env s).1.selectedIds = s.selectedIds ∧
    (handleMerge env s).1.counter = s.counter := by
  simp only [handleMerge]
  split
  · exact ⟨rfl, rfl, rfl⟩
  · split <;> exact ⟨rfl, rfl, rfl⟩

/-- A successful `handleMove` permutes the list and leaves the selection
and the counter unchanged. -/
theorem handleMove_state {id : String} {direction : MoveDir} {s s2 : AppState}
    (h : handleMove id direction s = some s2) :
    s2.files.Perm s.files ∧ s2.selectedIds = s.selectedIds ∧
      s2.counter = s.counter := by
  simp only [handleMove] at h
  split at h
  · cases hmg : moveGroup s.selectedIds direction s.files with
    | none => rw [hmg] at h; cases h
    | some nf =>
      rw [hmg] at h
      injection h with h
      subst h
      exact ⟨moveGroup_perm hmg, rfl, rfl⟩
  · repeat' split at h
    all_goals
      first
        | (injection h with h
           subst h
           first
             | exact ⟨List.Perm.refl _, rfl, rfl⟩
             | (rename_i heq
                exact ⟨arrayMove_perm heq, rfl, rfl⟩))
        | cases h

/-- A successful `handleDragEnd` permutes the list and leaves the
selection and the counter unchanged. -/
theorem handleDragEnd_state {activeId : String} {over : Option String}
    {s s2 : AppState} (h : handleDragEnd activeId over s = some s2) :
    s2.files.Perm s.files ∧ s2.selectedIds = s.selectedIds ∧
      s2.counter = s.counter := by
  simp only [handleDragEnd] at h
  cases over with
  | none =>
    injection h with h
    subst h
    exact ⟨List.Perm.refl _, rfl, rfl⟩
  | some overId =>
    dsimp only at h
    split at h
    · injection h with h
      subst h
      exact ⟨List.Perm.refl _, rfl, rfl⟩
    · split at h
      · split at h
        · injection h with h
          subst h
          refine ⟨?_, rfl, rfl⟩
          dsimp only
          split <;>
            exact (jsSplice0_perm _ _ _).trans (filter_sel_perm s.selectedIds s.files)
        · split at h
          · cases h
          · rename_i mv heq
            injection h with h
            subst h
            exact ⟨arrayMove_perm heq, rfl, rfl⟩
      · split at h
        · cases h
        · rename_i mv heq
          injection h with h
          subst h
          exact ⟨arrayMove_perm heq, rfl, rfl⟩

/-- The reachable-state invariant: entry ids are pairwise distinct, and
every id in the list was drawn from the supply at some index below the
counter. -/
theorem reaches_inv (gen : Nat → String) (hinj : Function.Injective gen) :
    ∀ s : AppState, Reaches gen s →
      (s.files.map DocFile.id).Nodup ∧
      ∀ f ∈ s.files, ∃ i, i < s.counter ∧ f.id = gen i := by
  intro s h
  induction h with
  | init => exact ⟨List.nodup_nil, fun f hf => absurd hf (List.not_mem_nil f)⟩
  | filesSelected s metas hr ih =>
    obtain ⟨hnd, hbd⟩ := ih
    have hinjAdd : Function.Injective (fun k => gen (s.counter + k)) :=
      fun x y hxy => Nat.add_left_cancel (hinj hxy)
    constructor
    · rw [handleFilesSelected_ids gen metas s, List.nodup_append]
      refine ⟨hnd, List.Nodup.map hinjAdd (List.nodup_range _), ?_⟩
      intro a ha hb
      obtain ⟨f, hf, hfid⟩ := List.mem_map.mp ha
      obtain ⟨i, hic, hgen⟩ := hbd f hf
      obtain ⟨k, hk, hgenk⟩ := List.mem_map.mp hb
      have hik : i = s.counter + k := hinj (by rw [← hgen, hfid, ← hgenk])
      omega
    · intro f hf
      simp only [handleFilesSelected] at hf
      rcases List.mem_append.mp hf with h1 | h1
      · obtain ⟨i, hi, he⟩ := hbd f h1
        exact ⟨i, by simp only [handleFilesSelected]; omega, he⟩
      · obtain ⟨q, hq, hqeq⟩ := List.mem_map.mp h1
        have hqlt : q.1 < metas.length := by
          have := List.mem_enum_iff_getElem?.mp hq
          exact (List.getElem?_eq_some.mp this).1
        refine ⟨s.counter + q.1, by simp only [handleFilesSelected]; omega, ?_⟩
        rw [← hqeq]
  | rotate s id hr ih =>
    obtain ⟨hnd, hbd⟩ := ih
    have hpres : ∀ f : DocFile,
        ((if f.id = id then { f with rotation := (f.rotation + 90) % 360 } else f) :
          DocFile).id = f.id := by
      intro f
      split <;> rfl
    constructor
    · rw [show (handleRotate id s).files = s.files.map _ from rfl,
        map_ids_preserved _ hpres]
      exact hnd
    · intro f hf
      obtain ⟨f0, hf0, hf0eq⟩ := List.mem_map.mp hf
      obtain ⟨i, hi, he⟩ := hbd f0 hf0
      exact ⟨i, hi, by rw [← hf0eq, hpres f0]; exact he⟩
  | bulkRotate s hr ih =>
    obtain ⟨hnd, hbd⟩ := ih
    have hpres : ∀ f : DocFile,
        ((if f.id ∈ s.selectedIds then { f with rotation := (f.rotation + 90) % 360 }
          else f) : DocFile).id = f.id := by
      intro f
      split <;> rfl
    constructor
    · rw [show (handleBulkRotate s).files = s.files.map _ from rfl,
        map_ids_preserved _ hpres]
      exact hnd
    · intro f hf
      obtain ⟨f0, hf0, hf0eq⟩ := List.mem_map.mp hf
      obtain ⟨i, hi, he⟩ := hbd f0 hf0
      exact ⟨i, hi, by rw [← hf0eq, hpres f0]; exact he⟩
  | deleteStep s id hr ih =>
    obtain ⟨hnd, hbd⟩ := ih
    refine ⟨((List.filter_sublist _).map DocFile.id).nodup hnd, ?_⟩
    intro f hf
    exact hbd f (List.mem_filter.mp hf).1
  | bulkDelete s hr ih =>
    obtain ⟨hnd, hbd⟩ := ih
    refine ⟨((List.filter_sublist _).map DocFile.id).nodup hnd, ?_⟩
    intro f hf
    exact hbd f (List.mem_filter.mp hf).1
  | clearStep s hr ih =>
    exact ⟨List.nodup_nil, fun f hf => absurd hf (List.not_mem_nil f)⟩
  | toggleOne s id hr ih => exact ih
  | toggleAll s hr ih => exact ih
  | move s s2 id direction hr heq ih =>
    obtain ⟨hperm, hsel2, hcnt⟩ := handleMove_state heq
    obtain ⟨hnd, hbd⟩ := ih
    refine ⟨hnd.perm ((hperm.map DocFile.id).symm), ?_⟩
    intro f hf
    obtain ⟨i, hi, he⟩ := hbd f (hperm.mem_iff.mp hf)
    exact ⟨i, by omega, he⟩
  | dragEnd s s2 activeId over hr heq ih =>
    obtain ⟨hperm, hsel2, hcnt⟩ := handleDragEnd_state heq
    obtain ⟨hnd, hbd⟩ := ih
    refine ⟨hnd.perm ((hperm.map DocFile.id).symm), ?_⟩
    intro f hf
    obtain ⟨i, hi, he⟩ := hbd f (hperm.mem_iff.mp hf)
    exact ⟨i, by omega, he⟩
  | merge s env hr ih =>
    obtain ⟨hnd, hbd⟩ := ih
    have h1 := handleMerge_fst env s
    rw [h1.1, h1.2.2]
    exact ⟨hnd, hbd⟩


/-- The running-length id supply is injective: distinct draws yield
strings of distinct lengths. -/
theorem genRun_injective : Function.Injective genRun := by
  intro m n h
  have h2 : (genRun m).data.length = (genRun n).data.length := by rw [h]
  simpa [genRun] using h2

/-- C5 counterexample: the claim's unconditional uniqueness fails on the
code, because `generateId` draws random tokens with no freshness check
against existing ids.  Under a supply that repeats a token, ingesting two
files from the initial state reaches a state whose two entries share one
id. -/
theorem reachable_ids_nodup_cex :
    Reaches genConst (handleFilesSelected genConst [textMeta, textMeta] initialState) ∧
    (handleFilesSelected genConst [textMeta, textMeta]
      initialState).files.map DocFile.id = [genConst 0, genConst 1] ∧
    genConst 0 = genConst 1 ∧
    ¬ ((handleFilesSelected genConst [textMeta, textMeta]
      initialState).files.map DocFile.id).Nodup :=
  ⟨Reaches.filesSelected initialState [textMeta, textMeta] Reaches.init,
   by decide, by decide, by decide⟩


/-- C5 (amended): provided the id supply never repeats a token (an
injectivity assumption that the code does not enforce but relies on
probabilistically), every reachable list state has pairwise distinct
entry ids, and ingesting any further batch (append) assigns only fresh
ids: the appended state's id list is again duplicate-free. -/
theorem reachable_ids_nodup (gen : Nat → String) (s : AppState)
    (hinj : Function.Injective gen) (hre : Reaches gen s) :
    (s.files.map DocFile.id).Nodup ∧
    ∀ metas : List FileMeta,
      ((handleFilesSelected gen metas s).files.map DocFile.id).Nodup :=
  ⟨(reaches_inv gen hinj s hre).1,
   fun metas =>
    (reaches_inv gen hinj _ (Reaches.filesSelected s metas hre)).1⟩

/-- C5 witness: under the injective running-length supply, ingesting two
files from the initial state yields distinct ids. -/
theorem reachable_ids_nodup_witness :
    Function.Injective genRun ∧
    Reaches genRun (handleFilesSelected genRun [textMeta, textMeta] initialState) ∧
    ((handleFilesSelected genRun [textMeta, textMeta]
      initialState).files.map DocFile.id).Nodup :=
  ⟨genRun_injective,
   Reaches.filesSelected initialState [textMeta, textMeta] Reaches.init,
   (reachable_ids_nodup genRun initialState genRun_injective Reaches.init).2
     [textMeta, textMeta]⟩


end CloudMegaMerge
